import Mathlib

/-!
# upkie: actuation parameters and spine request flag

A shallow embedding of `upkie/cpp/spine/Request.h` and of
`BulletInterface::Parameters` from `upkie/cpp/actuation/BulletInterface.h`,
followed by the properties established about them.

Conventions of the embedding:

* `uint32_t` values are natural numbers below `2^32`.
* A C++ `double` that is only stored and copied is a `Double`: either NaN or
  a finite value, written as a rational number.
* A method that mutates `*this` and may throw takes the object and returns
  the object as it is left behind together with the exception, if any.
* The configuration dictionary is the external `palimpsest::Dictionary`; it
  is modelled as far as `configure` uses its `const` interface.
* `compute_joint_torque`, `get_link_index` and the request state machine of
  the spine are declared or documented in these headers but defined in
  sources that are not at hand. Their definitions here follow the
  specification and say so in their documentation.

The first part of the file holds the definitions, the second the theorems.
-/

namespace upkie

/-! ## `upkie/cpp/spine/Request.h` -/

/-- Request flag used for shared-memory inter-process communication
(`enum class Request : uint32_t`). -/
inductive Request where
  | kNone
  | kAction
  | kStart
  | kStop
  | kError
  deriving DecidableEq, Repr

/-- Width of the underlying type of `Request`. -/
def uint32_modulus : Nat := 2 ^ 32

/-- The enumerator values, `static_cast<uint32_t>(request)`. -/
def Request.to_uint32 : Request → Nat
  | .kNone => 0 % uint32_modulus
  | .kAction => 1 % uint32_modulus
  | .kStart => 2 % uint32_modulus
  | .kStop => 3 % uint32_modulus
  | .kError => 4 % uint32_modulus

/-- The enumerator named by a raw 32-bit value, `static_cast<Request>(value)`;
`none` when the value names no enumerator. -/
def Request.of_uint32 (value : Nat) : Option Request :=
  if value % uint32_modulus = 0 then some .kNone
  else if value % uint32_modulus = 1 then some .kAction
  else if value % uint32_modulus = 2 then some .kStart
  else if value % uint32_modulus = 3 then some .kStop
  else if value % uint32_modulus = 4 then some .kError
  else none

/-! ## Values held by a configuration dictionary -/

/-- A C++ `double` as far as `Parameters` needs it: stored, copied and
compared with its initialiser, never computed with. -/
inductive Double where
  | nan
  | finite (q : ℚ)
  deriving DecidableEq, Repr

/-- `Eigen::Vector3d`. -/
structure Vector3d where
  x : Double
  y : Double
  z : Double
  deriving DecidableEq, Repr

/-- `Eigen::Vector3d::Zero()`. -/
def Vector3d.Zero : Vector3d := ⟨.finite 0, .finite 0, .finite 0⟩

/-- `Eigen::Quaterniond`, coefficients named as by its accessors. -/
structure Quaterniond where
  w : Double
  x : Double
  y : Double
  z : Double
  deriving DecidableEq, Repr

/-- `Eigen::Quaterniond::Identity()`. -/
def Quaterniond.Identity : Quaterniond := ⟨.finite 1, .finite 0, .finite 0, .finite 0⟩

/-- Exceptions thrown by the configuration dictionary. -/
inductive Error where
  | KeyError (key : String)
  | TypeError
  deriving DecidableEq, Repr

/-- A typed value stored at a leaf of a dictionary. Reading it back at
another type than the one it was stored with is a `TypeError`. -/
inductive Value where
  | bool (b : Bool)
  | int (i : Int)
  | double (d : Double)
  | string (s : String)
  | vector3d (v : Vector3d)
  | quaterniond (q : Quaterniond)
  deriving DecidableEq, Repr

/-- Reading a value as `bool`. -/
def Value.as_bool : Value → Option Bool
  | .bool b => some b
  | _ => none

/-- Reading a value as `double`. -/
def Value.as_double : Value → Option Double
  | .double d => some d
  | _ => none

/-- Reading a value as `Eigen::Vector3d`. -/
def Value.as_vector3d : Value → Option Vector3d
  | .vector3d v => some v
  | _ => none

/-- Reading a value as `Eigen::Quaterniond`. -/
def Value.as_quaterniond : Value → Option Quaterniond
  | .quaterniond q => some q
  | _ => none

/-- The `palimpsest::Dictionary` that `configure` reads (an external library,
used here through its `const` interface only): either a single value or a map
from keys to dictionaries. The map is listed in the order in which `keys()`
enumerates it; a lookup takes the first entry with the key. -/
inductive Dictionary where
  | value (v : Value)
  | map (entries : List (String × Dictionary))

namespace Dictionary

/-- The entries of the map; a value has none. -/
def entries : Dictionary → List (String × Dictionary)
  | .value _ => []
  | .map es => es

/-- `is_map()`. -/
def is_map : Dictionary → Bool
  | .value _ => false
  | .map _ => true

/-- The sub-dictionary stored at `key`, if any (`map_.find(key)`). -/
def find (d : Dictionary) (key : String) : Option Dictionary :=
  d.entries.lookup key

/-- `has(key)`. -/
def has (d : Dictionary) (key : String) : Bool :=
  (d.find key).isSome

/-- `keys()`. -/
def keys (d : Dictionary) : List String :=
  d.entries.map Prod.fst

/-- `operator()(key) const`: the sub-dictionary at `key`; a `TypeError` on a
value, a `KeyError` when the key is missing (a `const` dictionary cannot
create it). -/
def child (d : Dictionary) (key : String) : Except Error Dictionary :=
  if d.is_map then
    match d.find key with
    | some c => .ok c
    | none => .error (.KeyError key)
  else .error .TypeError

/-- `as<T>() const`, also the implicit conversion `operator const T&() const`:
the value of a leaf read at type `T`, selected by `read`. -/
def as {α : Type} (read : Value → Option α) : Dictionary → Except Error α
  | .map _ => .error .TypeError
  | .value v =>
    match read v with
    | some a => .ok a
    | none => .error .TypeError

/-- `get<T>(key) const`. -/
def get {α : Type} (read : Value → Option α) (d : Dictionary) (key : String) :
    Except Error α :=
  match d.find key with
  | none => .error (.KeyError key)
  | some c => c.as read

/-- `get<T>(key, default_value) const`: the default when the key is missing,
a `TypeError` when the key holds a map or a value of another type. -/
def get_or {α : Type} (read : Value → Option α) (d : Dictionary) (key : String)
    (default_value : α) : Except Error α :=
  match d.find key with
  | none => .ok default_value
  | some c => c.as read

/-- Whether the nested key `path` (outermost key first) is present. -/
def has_path (d : Dictionary) : List String → Bool
  | [] => true
  | key :: rest =>
    match d.find key with
    | none => false
    | some c => has_path c rest

end Dictionary

/-! ## `BulletInterface::Parameters` -/

/-- A `std::map<std::string, double>`, kept as its sorted list of pairs. -/
abbrev StringDoubleMap := List (String × Double)

/-- `std::less<std::string>`, the order of the keys of a `std::map`: the
lexicographic order of the characters. -/
def string_less (a b : String) : Bool :=
  decide (a.data < b.data)

/-- `std::map::try_emplace(key, value)` on the sorted list of pairs of a
`std::map<std::string, T>`: inserts unless the key is there. -/
def try_emplace {β : Type} : List (String × β) → String → β → List (String × β)
  | [], key, value => [(key, value)]
  | (k, v) :: rest, key, value =>
    if key = k then (k, v) :: rest
    else if string_less key k then (key, value) :: (k, v) :: rest
    else (k, v) :: try_emplace rest key value

/-- Interface parameters, with the default member initialisers of the
header. -/
structure Parameters where
  argv0 : String := ""
  monitor_contacts : List String := []
  dt : Double := .nan
  follower_camera : Bool := false
  gravity : Bool := true
  floor : Bool := true
  gui : Bool := false
  robot_urdf_path : String := ""
  env_urdf_paths : List String := []
  torque_control_kd : Double := .finite 1
  torque_control_kp : Double := .finite 20
  position_base_in_world : Vector3d := Vector3d.Zero
  orientation_base_in_world : Quaterniond := Quaterniond.Identity
  linear_velocity_base_to_world_in_world : Vector3d := Vector3d.Zero
  angular_velocity_base_in_base : Vector3d := Vector3d.Zero
  joint_friction : StringDoubleMap := []
  deriving DecidableEq, Repr

/-- What a call leaves behind: the parameters as they stand when the call
returns or throws, and the exception thrown, if any. -/
structure Outcome where
  params : Parameters
  error : Option Error
  deriving DecidableEq, Repr

/-- Sequencing of statements: the next statement runs unless the previous
one threw. -/
def Outcome.and_then (o : Outcome) (next : Parameters → Outcome) : Outcome :=
  match o.error with
  | none => next o.params
  | some _ => o

/-- An assignment `field = rhs` whose right-hand side may throw: on a throw
the object is untouched. -/
def assign {α : Type} (p : Parameters) (rhs : Except Error α)
    (store : Parameters → α → Parameters) : Outcome :=
  match rhs with
  | .ok a => ⟨store p a, none⟩
  | .error e => ⟨p, some e⟩

/-- Lines 53 to 62 of `configure`: the contacts to monitor are cleared, then
every key of `monitor.contacts` is pushed back. -/
def configure_monitor_contacts (bullet : Dictionary) (p : Parameters) : Outcome :=
  let p := { p with monitor_contacts := [] }
  if bullet.has "monitor" then
    match bullet.child "monitor" with
    | .error e => ⟨p, some e⟩
    | .ok monitor =>
      if monitor.has "contacts" then
        match monitor.child "contacts" with
        | .error e => ⟨p, some e⟩
        | .ok contacts =>
          ⟨{ p with monitor_contacts :=
              contacts.keys.foldl (fun acc body => acc ++ [body]) p.monitor_contacts }, none⟩
      else ⟨p, none⟩
  else ⟨p, none⟩

/-- The loop of lines 66 to 71 over the keys of `joint_properties`, from the
joints still to visit and the friction map built so far: the map as the loop
leaves it, and the exception that ended it, if any. -/
def joint_friction_loop (joint_properties : Dictionary) :
    List String → StringDoubleMap → StringDoubleMap × Option Error
  | [], joint_friction => (joint_friction, none)
  | joint :: rest, joint_friction =>
    match joint_properties.child joint with
    | .error e => (joint_friction, some e)
    | .ok props =>
      if props.has "friction" then
        match props.get Value.as_double "friction" with
        | .error e => (joint_friction, some e)
        | .ok friction =>
          joint_friction_loop joint_properties rest (try_emplace joint_friction joint friction)
      else joint_friction_loop joint_properties rest joint_friction

/-- Lines 64 to 72 of `configure`: the friction overrides are cleared, then
read from `joint_properties`. -/
def configure_joint_friction (bullet : Dictionary) (p : Parameters) : Outcome :=
  let p := { p with joint_friction := [] }
  if bullet.has "joint_properties" then
    match bullet.child "joint_properties" with
    | .error e => ⟨p, some e⟩
    | .ok joint_properties =>
      let result := joint_friction_loop joint_properties joint_properties.keys p.joint_friction
      ⟨{ p with joint_friction := result.1 }, result.2⟩
  else ⟨p, none⟩

/-- Lines 74 to 84 of `configure`: the state of the base upon reset. -/
def configure_reset (bullet : Dictionary) (p : Parameters) : Outcome :=
  if bullet.has "reset" then
    match bullet.child "reset" with
    | .error e => ⟨p, some e⟩
    | .ok reset =>
      (assign p (reset.get_or Value.as_vector3d "position_base_in_world" Vector3d.Zero)
        (fun p v => { p with position_base_in_world := v })).and_then fun p =>
      (assign p (reset.get_or Value.as_quaterniond "orientation_base_in_world"
          Quaterniond.Identity)
        (fun p q => { p with orientation_base_in_world := q })).and_then fun p =>
      (assign p (reset.get_or Value.as_vector3d "linear_velocity_base_to_world_in_world"
          Vector3d.Zero)
        (fun p v => { p with linear_velocity_base_to_world_in_world := v })).and_then fun p =>
      assign p (reset.get_or Value.as_vector3d "angular_velocity_base_in_base" Vector3d.Zero)
        (fun p v => { p with angular_velocity_base_in_base := v })
  else ⟨p, none⟩

/-- The expression `bullet("torque_control")(gain)` converted to `double`. -/
def torque_control_gain (bullet : Dictionary) (gain : String) : Except Error Double :=
  match bullet.child "torque_control" with
  | .error e => .error e
  | .ok torque_control =>
    match torque_control.child gain with
    | .error e => .error e
    | .ok d => d.as Value.as_double

/-- Lines 86 to 89 of `configure`: the feedback gains, `kd` first. -/
def configure_torque_control (bullet : Dictionary) (p : Parameters) : Outcome :=
  if bullet.has "torque_control" then
    (assign p (torque_control_gain bullet "kd")
      (fun p d => { p with torque_control_kd := d })).and_then fun p =>
    assign p (torque_control_gain bullet "kp")
      (fun p d => { p with torque_control_kp := d })
  else ⟨p, none⟩

/-- Lines 50 to 89 of `configure`, with `bullet` bound to `config("bullet")`. -/
def configure_bullet (bullet : Dictionary) (p : Parameters) : Outcome :=
  (assign p (bullet.get_or Value.as_bool "follower_camera" p.follower_camera)
    (fun p b => { p with follower_camera := b })).and_then fun p =>
  (assign p (bullet.get_or Value.as_bool "gui" p.gui)
    (fun p b => { p with gui := b })).and_then fun p =>
  (configure_monitor_contacts bullet p).and_then fun p =>
  (configure_joint_friction bullet p).and_then fun p =>
  (configure_reset bullet p).and_then fun p =>
  configure_torque_control bullet p

/-- `Parameters::configure(config)`, lines 42 to 90. -/
def Parameters.configure (p : Parameters) (config : Dictionary) : Outcome :=
  if !config.has "bullet" then ⟨p, none⟩
  else
    match config.child "bullet" with
    | .error e => ⟨p, some e⟩
    | .ok bullet => configure_bullet bullet p

/-- The constructor `Parameters(config)`, line 36: default member
initialisers, then `configure`; no object when `configure` throws. -/
def Parameters.from_config (config : Dictionary) : Except Error Parameters :=
  let o := Parameters.configure {} config
  match o.error with
  | none => .ok o.params
  | some e => .error e

/-! ## Overwrites of the configurable members -/

/-- A set of overwrites of the members that `configure` assigns: for each
member, the value it receives, or `none` when it is left as it is. -/
structure Patch where
  follower_camera : Option Bool := none
  gui : Option Bool := none
  monitor_contacts : Option (List String) := none
  joint_friction : Option StringDoubleMap := none
  position_base_in_world : Option Vector3d := none
  orientation_base_in_world : Option Quaterniond := none
  linear_velocity_base_to_world_in_world : Option Vector3d := none
  angular_velocity_base_in_base : Option Vector3d := none
  torque_control_kd : Option Double := none
  torque_control_kp : Option Double := none

/-- The parameters after the overwrites. -/
def Patch.apply (π : Patch) (p : Parameters) : Parameters :=
  { p with
    follower_camera := π.follower_camera.getD p.follower_camera
    gui := π.gui.getD p.gui
    monitor_contacts := π.monitor_contacts.getD p.monitor_contacts
    joint_friction := π.joint_friction.getD p.joint_friction
    position_base_in_world := π.position_base_in_world.getD p.position_base_in_world
    orientation_base_in_world := π.orientation_base_in_world.getD p.orientation_base_in_world
    linear_velocity_base_to_world_in_world :=
      π.linear_velocity_base_to_world_in_world.getD p.linear_velocity_base_to_world_in_world
    angular_velocity_base_in_base :=
      π.angular_velocity_base_in_base.getD p.angular_velocity_base_in_base
    torque_control_kd := π.torque_control_kd.getD p.torque_control_kd
    torque_control_kp := π.torque_control_kp.getD p.torque_control_kp }

/-- The later overwrite of a member, or else the earlier one. -/
def later {α : Type} (first second : Option α) : Option α :=
  match second with
  | some a => some a
  | none => first

/-- The overwrites of `π` followed by those of `ρ`. -/
def Patch.followed_by (π ρ : Patch) : Patch where
  follower_camera := later π.follower_camera ρ.follower_camera
  gui := later π.gui ρ.gui
  monitor_contacts := later π.monitor_contacts ρ.monitor_contacts
  joint_friction := later π.joint_friction ρ.joint_friction
  position_base_in_world := later π.position_base_in_world ρ.position_base_in_world
  orientation_base_in_world := later π.orientation_base_in_world ρ.orientation_base_in_world
  linear_velocity_base_to_world_in_world :=
    later π.linear_velocity_base_to_world_in_world ρ.linear_velocity_base_to_world_in_world
  angular_velocity_base_in_base :=
    later π.angular_velocity_base_in_base ρ.angular_velocity_base_in_base
  torque_control_kd := later π.torque_control_kd ρ.torque_control_kd
  torque_control_kp := later π.torque_control_kp ρ.torque_control_kp

/-- A statement that, whatever the parameters it starts from, makes the same
overwrites and ends the same way. -/
def IsPatch (s : Parameters → Outcome) : Prop :=
  ∃ (π : Patch) (e : Option Error), ∀ p, s p = ⟨π.apply p, e⟩

/-- A statement that never changes the member read by `field`. -/
def Preserves {α : Type} (field : Parameters → α) (s : Parameters → Outcome) : Prop :=
  ∀ p, field (s p).params = field p

/-! ## Sample parameters and configurations -/

/-- Parameters that monitor a contact, override a joint friction and reset
the base upside down. -/
def sample_params : Parameters :=
  { monitor_contacts := ["left_wheel_tire"]
    joint_friction := [("left_wheel", .finite 2)]
    orientation_base_in_world := ⟨.finite 0, .finite 1, .finite 0, .finite 0⟩ }

/-- A configuration whose "bullet" section only gives the reset position of
the base. -/
def reset_position_config : Dictionary :=
  .map [("bullet", .map [("reset", .map [("position_base_in_world",
    .value (.vector3d ⟨.finite 0, .finite 0, .finite 1⟩))])])]

/-- A configuration whose "torque_control" section gives `gains`. -/
def torque_control_config (gains : List (String × Dictionary)) : Dictionary :=
  .map [("bullet", .map [("torque_control", .map gains)])]

/-! ## Joint torque of the simulated backend -/

/-- Modelled from the spec: the measurements of one joint that
`compute_joint_torque` reads, `measured_position(joint)` and
`measured_velocity(joint)`. Doubles are taken as exact rational numbers. -/
structure JointState where
  measured_position : ℚ
  measured_velocity : ℚ

/-- Modelled from the spec: `clamp(x, lo, hi)` of the control law. -/
def clamp (x lo hi : ℚ) : ℚ :=
  max lo (min x hi)

/-- Modelled from the spec: `BulletInterface::compute_joint_torque`, which the
header declares at lines 290 to 295 and whose body, in `BulletInterface.cpp`,
is not among the sources. The control law is that of section 4.4 of the
specification, with its edge case: a non-positive `maximum_torque` forces the
result to zero. `kp_base` and `kd_base` are the backend-wide gains
`torque_control_kp` and `torque_control_kd`. -/
def compute_joint_torque (kp_base kd_base : ℚ) (joint : JointState)
    (feedforward_torque target_position target_velocity kp_scale kd_scale
      maximum_torque : ℚ) : ℚ :=
  let position_error := target_position - joint.measured_position
  let velocity_error := target_velocity - joint.measured_velocity
  let torque := feedforward_torque + kp_scale * kp_base * position_error
    + kd_scale * kd_base * velocity_error
  if maximum_torque ≤ 0 then 0 else clamp torque (-maximum_torque) maximum_torque

/-! ## Link index memoization -/

/-- Modelled from the spec: the linear scan of the link table of the physics
engine for `link_name`, counting from `index`; the sentinel -1 when no link
has the name. The function `find_link_index` that `get_link_index` wraps is
not among the sources. -/
def find_link_index_from (link_name : String) : List String → Int → Int
  | [], _ => -1
  | name :: rest, index =>
    if name = link_name then index else find_link_index_from link_name rest (index + 1)

/-- Modelled from the spec: the uncached scan of the whole link table. -/
def find_link_index (links : List String) (link_name : String) : Int :=
  find_link_index_from link_name links 0

/-- The member `link_index_` of `BulletInterface` (line 366), the map from
link name to link index, together with a count of the scans of the link table
made so far, kept to observe the memoization. -/
structure LinkIndexCache where
  link_index_ : List (String × Int) := []
  scans : Nat := 0
  deriving DecidableEq, Repr

/-- Modelled from the spec: `BulletInterface::get_link_index`, declared at
line 320 as a memoization wrapper around `find_link_index`, with its body in
the missing `BulletInterface.cpp`: a name found in `link_index_` is answered
from it; otherwise the link table is scanned once and the result, found or
not, is cached. Returns the index and the cache as the call leaves it. -/
def get_link_index (links : List String) (cache : LinkIndexCache) (link_name : String) :
    Int × LinkIndexCache :=
  match cache.link_index_.lookup link_name with
  | some index => (index, cache)
  | none =>
    let index := find_link_index links link_name
    (index, { link_index_ := try_emplace cache.link_index_ link_name index
              scans := cache.scans + 1 })

/-- A sequence of lookups, one after the other: the indices returned and the
cache at the end. -/
def get_link_indices (links : List String) :
    LinkIndexCache → List String → List Int × LinkIndexCache
  | cache, [] => ([], cache)
  | cache, link_name :: rest =>
    let first := get_link_index links cache link_name
    let others := get_link_indices links first.2 rest
    (first.1 :: others.1, others.2)

/-! ## Request state machine of the spine -/

/-- Modelled from the spec: what can happen to the request flag. The agent
writes a raw 32-bit value into the flag; the spine processes the pending
request, having found its payload valid or not; the spine clears an error
once the recovery of the agent is acknowledged. The spine sources are not
among the sources; only the `Request` enumeration is. -/
inductive Event where
  | agent_write (value : Nat)
  | spine_process (payload_valid : Bool)
  | spine_acknowledge
  deriving DecidableEq, Repr

/-- Modelled from the spec: the writes the agent may make when it reads
`None`, namely `Action`, `Start` and `Stop`. -/
def acceptable_write (value : Nat) : Bool :=
  match Request.of_uint32 value with
  | some .kAction => true
  | some .kStart => true
  | some .kStop => true
  | _ => false

/-- Modelled from the spec: the events that carry an invalid request, an
agent write other than `Action`, `Start` or `Stop`, or a request whose
payload the spine finds invalid. -/
def Event.is_invalid : Event → Bool
  | .agent_write value => !acceptable_write value
  | .spine_process payload_valid => !payload_valid
  | .spine_acknowledge => false

/-- Modelled from the spec: one transition of the request state machine of
section 4.5, `none` when the event cannot happen at this flag. From `None`
the agent writes `Action`, `Start` or `Stop`, and any other write drives the
flag to `Error`. The spine completes a pending request with `None`, or with
`Error` when the request is invalid. An `Error` is cleared to `None` once
recovery is acknowledged. -/
def Request.step (flag : Request) : Event → Option Request
  | .agent_write value =>
    match flag with
    | .kNone =>
      if acceptable_write value then Request.of_uint32 value else some .kError
    | _ => none
  | .spine_process payload_valid =>
    match flag with
    | .kAction | .kStart | .kStop => some (if payload_valid then .kNone else .kError)
    | _ => none
  | .spine_acknowledge =>
    match flag with
    | .kError => some .kNone
    | _ => none

/-- Modelled from the spec: the flag after a sequence of events, `none` when
one of them cannot happen. -/
def Request.run : Request → List Event → Option Request
  | flag, [] => some flag
  | flag, event :: rest =>
    match flag.step event with
    | some next => Request.run next rest
    | none => none

/-- Every cached index is the one the scan of the link table gives. -/
def CacheAgrees (links : List String) (cache : LinkIndexCache) : Prop :=
  ∀ name index, cache.link_index_.lookup name = some index →
    index = find_link_index links name

/-- The cache holds exactly the names in `seen`, each once, and one scan was
made for each. -/
def CacheCounts (seen : List String) (cache : LinkIndexCache) : Prop :=
  (cache.link_index_.map Prod.fst).Nodup ∧
  (∀ name, name ∈ cache.link_index_.map Prod.fst ↔ name ∈ seen) ∧
  cache.scans = (cache.link_index_.map Prod.fst).length

/-! # Theorems -/

/-! ## Properties of the request flag -/

/-- C1: the wire encoding of `Request` is exactly None=0, Action=1, Start=2,
Stop=3, Error=4, every value fits in 32 bits, the five values are pairwise
distinct, and converting a `Request` to its integer and back gives the same
`Request`. -/
theorem request_wire_encoding :
    Request.kNone.to_uint32 = 0 ∧ Request.kAction.to_uint32 = 1 ∧
    Request.kStart.to_uint32 = 2 ∧ Request.kStop.to_uint32 = 3 ∧
    Request.kError.to_uint32 = 4 ∧
    (∀ r : Request, r.to_uint32 < uint32_modulus) ∧
    Function.Injective Request.to_uint32 ∧
    (∀ r : Request, Request.of_uint32 r.to_uint32 = some r) := by
  refine ⟨by decide, by decide, by decide, by decide, by decide, ?_, ?_, ?_⟩
  · intro r; cases r <;> decide
  · intro r s h
    cases r <;> cases s <;> first | rfl | (exfalso; revert h; decide)
  · intro r; cases r <;> decide

/-! ## Default parameters -/

/-- A configuration without a "bullet" section leaves the parameters alone. -/
theorem configure_without_bullet (p : Parameters) (config : Dictionary)
    (h : config.has "bullet" = false) : Parameters.configure p config = ⟨p, none⟩ := by
  simp [Parameters.configure, h]

/-- C4: parameters built from a configuration without a "bullet" section are
the default-constructed parameters, and those hold the documented defaults:
no follower camera, no GUI, no monitored contacts, no joint friction
overrides, reset base position zero, reset base orientation identity, reset
velocities zero, kp = 20, kd = 1 and dt = NaN. -/
theorem default_parameters (config : Dictionary) (h : config.has "bullet" = false) :
    Parameters.from_config config = .ok {} ∧
    ({} : Parameters).follower_camera = false ∧
    ({} : Parameters).gui = false ∧
    ({} : Parameters).monitor_contacts = [] ∧
    ({} : Parameters).joint_friction = [] ∧
    ({} : Parameters).position_base_in_world = ⟨.finite 0, .finite 0, .finite 0⟩ ∧
    ({} : Parameters).orientation_base_in_world = ⟨.finite 1, .finite 0, .finite 0, .finite 0⟩ ∧
    ({} : Parameters).linear_velocity_base_to_world_in_world
      = ⟨.finite 0, .finite 0, .finite 0⟩ ∧
    ({} : Parameters).angular_velocity_base_in_base = ⟨.finite 0, .finite 0, .finite 0⟩ ∧
    ({} : Parameters).torque_control_kp = .finite 20 ∧
    ({} : Parameters).torque_control_kd = .finite 1 ∧
    ({} : Parameters).dt = .nan := by
  refine ⟨?_, rfl, rfl, rfl, rfl, rfl, rfl, rfl, rfl, rfl, rfl, rfl⟩
  simp [Parameters.from_config, configure_without_bullet _ _ h]

/-- C4 at a configuration that only has a "spine" section. -/
theorem default_parameters_witness :
    (Dictionary.map [("spine", .map [("frequency", .value (.int 1000))])]).has "bullet" = false ∧
    Parameters.from_config (.map [("spine", .map [("frequency", .value (.int 1000))])])
      = .ok {} :=
  ⟨by decide,
   (default_parameters (.map [("spine", .map [("frequency", .value (.int 1000))])])
      (by decide)).1⟩

/-! ## `configure` as a set of overwrites -/

theorem getD_later {α : Type} (first second : Option α) (a : α) :
    (later first second).getD a = second.getD (first.getD a) := by
  cases second <;> rfl

theorem getD_getD {α : Type} (o : Option α) (a : α) : o.getD (o.getD a) = o.getD a := by
  cases o <;> rfl

theorem Patch.apply_apply (π : Patch) (p : Parameters) : π.apply (π.apply p) = π.apply p := by
  simp [Patch.apply, getD_getD]

theorem Patch.apply_followed_by (π ρ : Patch) (p : Parameters) :
    ρ.apply (π.apply p) = (π.followed_by ρ).apply p := by
  simp [Patch.apply, Patch.followed_by, getD_later]

theorem Patch.apply_empty (p : Parameters) : Patch.apply {} p = p := rfl

theorem isPatch_idempotent {s : Parameters → Outcome} (h : IsPatch s) (p : Parameters) :
    s (s p).params = s p := by
  obtain ⟨π, e, hs⟩ := h
  simp [hs, Patch.apply_apply]

theorem isPatch_skip (e : Option Error) : IsPatch (fun p => ⟨p, e⟩) :=
  ⟨{}, e, fun _ => rfl⟩

theorem isPatch_and_then {s t : Parameters → Outcome} (hs : IsPatch s) (ht : IsPatch t) :
    IsPatch (fun p => (s p).and_then t) := by
  obtain ⟨π, e, hs⟩ := hs
  obtain ⟨ρ, f, ht⟩ := ht
  cases e with
  | none =>
    exact ⟨π.followed_by ρ, f, fun p => by
      simp [Outcome.and_then, hs, ht, Patch.apply_followed_by]⟩
  | some e =>
    exact ⟨π, some e, fun p => by simp [Outcome.and_then, hs]⟩

theorem isPatch_assign {α : Type} (rhs : Except Error α)
    (store : Parameters → α → Parameters) (overwrite : α → Patch)
    (h : ∀ p a, store p a = (overwrite a).apply p) :
    IsPatch (fun p => assign p rhs store) := by
  cases rhs with
  | error e => exact ⟨{}, some e, fun _ => rfl⟩
  | ok a => exact ⟨overwrite a, none, fun p => by simp [upkie.assign, h]⟩

theorem isPatch_follower_camera (bullet : Dictionary) :
    IsPatch (fun p => assign p
      (bullet.get_or Value.as_bool "follower_camera" p.follower_camera)
      (fun p b => { p with follower_camera := b })) := by
  cases h : bullet.find "follower_camera" with
  | none => exact ⟨{}, none, fun p => by simp [Dictionary.get_or, h, upkie.assign]; rfl⟩
  | some c =>
    simp only [Dictionary.get_or, h]
    exact isPatch_assign _ _ (fun b => { follower_camera := some b }) (fun _ _ => rfl)

theorem isPatch_gui (bullet : Dictionary) :
    IsPatch (fun p => assign p (bullet.get_or Value.as_bool "gui" p.gui)
      (fun p b => { p with gui := b })) := by
  cases h : bullet.find "gui" with
  | none => exact ⟨{}, none, fun p => by simp [Dictionary.get_or, h, upkie.assign]; rfl⟩
  | some c =>
    simp only [Dictionary.get_or, h]
    exact isPatch_assign _ _ (fun b => { gui := some b }) (fun _ _ => rfl)

theorem isPatch_monitor_contacts (bullet : Dictionary) :
    IsPatch (configure_monitor_contacts bullet) := by
  unfold configure_monitor_contacts
  by_cases h1 : bullet.has "monitor" = true
  · cases h2 : bullet.child "monitor" with
    | error e =>
      exact ⟨{ monitor_contacts := some [] }, some e, fun p => by simp [h1, h2]; rfl⟩
    | ok monitor =>
      by_cases h3 : monitor.has "contacts" = true
      · cases h4 : monitor.child "contacts" with
        | error e =>
          exact ⟨{ monitor_contacts := some [] }, some e, fun p => by simp [h1, h2, h3, h4]; rfl⟩
        | ok contacts =>
          exact ⟨{ monitor_contacts := some (contacts.keys.foldl (fun acc body => acc ++ [body]) []) },
            none, fun p => by simp [h1, h2, h3, h4]; rfl⟩
      · exact ⟨{ monitor_contacts := some [] }, none, fun p => by simp [h1, h2, h3]; rfl⟩
  · exact ⟨{ monitor_contacts := some [] }, none, fun p => by simp [h1]; rfl⟩

theorem isPatch_joint_friction (bullet : Dictionary) :
    IsPatch (configure_joint_friction bullet) := by
  unfold configure_joint_friction
  by_cases h1 : bullet.has "joint_properties" = true
  · cases h2 : bullet.child "joint_properties" with
    | error e =>
      exact ⟨{ joint_friction := some [] }, some e, fun p => by simp [h1, h2]; rfl⟩
    | ok jp =>
      exact ⟨{ joint_friction := some (joint_friction_loop jp jp.keys []).1 },
        (joint_friction_loop jp jp.keys []).2, fun p => by simp [h1, h2]; rfl⟩
  · exact ⟨{ joint_friction := some [] }, none, fun p => by simp [h1]; rfl⟩

theorem isPatch_reset (bullet : Dictionary) : IsPatch (configure_reset bullet) := by
  unfold configure_reset
  by_cases h1 : bullet.has "reset" = true
  · cases h2 : bullet.child "reset" with
    | error e => simpa [h1, h2] using isPatch_skip (some e)
    | ok reset =>
      simp only [h1, if_true]
      refine isPatch_and_then (isPatch_assign _ _
        (fun v => { position_base_in_world := some v }) (fun _ _ => rfl)) ?_
      refine isPatch_and_then (isPatch_assign _ _
        (fun q => { orientation_base_in_world := some q }) (fun _ _ => rfl)) ?_
      refine isPatch_and_then (isPatch_assign _ _
        (fun v => { linear_velocity_base_to_world_in_world := some v }) (fun _ _ => rfl)) ?_
      exact isPatch_assign _ _
        (fun v => { angular_velocity_base_in_base := some v }) (fun _ _ => rfl)
  · simpa [h1] using isPatch_skip none

theorem isPatch_torque_control (bullet : Dictionary) :
    IsPatch (configure_torque_control bullet) := by
  unfold configure_torque_control
  by_cases h1 : bullet.has "torque_control" = true
  · simp only [h1, if_true]
    refine isPatch_and_then (isPatch_assign _ _
      (fun d => { torque_control_kd := some d }) (fun _ _ => rfl)) ?_
    exact isPatch_assign _ _ (fun d => { torque_control_kp := some d }) (fun _ _ => rfl)
  · simpa [h1] using isPatch_skip none

theorem isPatch_configure_bullet (bullet : Dictionary) : IsPatch (configure_bullet bullet) := by
  unfold configure_bullet
  refine isPatch_and_then (isPatch_follower_camera bullet) ?_
  refine isPatch_and_then (isPatch_gui bullet) ?_
  refine isPatch_and_then (isPatch_monitor_contacts bullet) ?_
  refine isPatch_and_then (isPatch_joint_friction bullet) ?_
  exact isPatch_and_then (isPatch_reset bullet) (isPatch_torque_control bullet)

theorem isPatch_configure (config : Dictionary) :
    IsPatch (fun p => Parameters.configure p config) := by
  unfold Parameters.configure
  by_cases h1 : config.has "bullet" = true
  · cases h2 : config.child "bullet" with
    | error e => simpa [h1, h2] using isPatch_skip (some e)
    | ok bullet => simpa [h1, h2] using isPatch_configure_bullet bullet
  · simpa [h1] using isPatch_skip none

/-- C6: applying the same configuration twice is the same as applying it
once: `configure(c)` run on what `configure(c)` left of `p` leaves the same
parameters, and ends the same way, as the first call. -/
theorem configure_idempotent (p : Parameters) (config : Dictionary) :
    Parameters.configure (Parameters.configure p config).params config
      = Parameters.configure p config :=
  isPatch_idempotent (isPatch_configure config) p

/-! ## Members that `configure` leaves alone -/

theorem Dictionary.child_of_find {d c : Dictionary} {key : String} (h : d.find key = some c) :
    d.child key = .ok c := by
  cases d with
  | value v => simp [Dictionary.find, Dictionary.entries] at h
  | map es => simp [Dictionary.child, Dictionary.is_map, h]

theorem Dictionary.has_of_find {d c : Dictionary} {key : String} (h : d.find key = some c) :
    d.has key = true := by
  simp [Dictionary.has, h]

theorem Dictionary.find_of_has_eq_false {d : Dictionary} {key : String}
    (h : d.has key = false) : d.find key = none := by
  simpa [Dictionary.has] using h

theorem Dictionary.has_path_append (d : Dictionary) (path more : List String)
    (h : d.has_path path = false) : d.has_path (path ++ more) = false := by
  induction path generalizing d with
  | nil => simp [Dictionary.has_path] at h
  | cons key rest ih =>
    simp only [List.cons_append, Dictionary.has_path] at h ⊢
    cases hf : d.find key with
    | none => rfl
    | some c =>
      rw [hf] at h
      exact ih c h

theorem configure_of_find {config bullet : Dictionary} (h : config.find "bullet" = some bullet)
    (p : Parameters) : Parameters.configure p config = configure_bullet bullet p := by
  simp [Parameters.configure, Dictionary.has_of_find h, Dictionary.child_of_find h]

theorem preserves_skip {α : Type} (field : Parameters → α) (e : Option Error) :
    Preserves field (fun p => ⟨p, e⟩) :=
  fun _ => rfl

theorem preserves_and_then {α : Type} {field : Parameters → α} {s t : Parameters → Outcome}
    (hs : Preserves field s) (ht : Preserves field t) :
    Preserves field (fun p => (s p).and_then t) := by
  intro p
  show field ((s p).and_then t).params = field p
  unfold Outcome.and_then
  split
  · rw [ht, hs]
  · exact hs p

theorem preserves_assign {α β : Type} (field : Parameters → α)
    (rhs : Parameters → Except Error β) (store : Parameters → β → Parameters)
    (h : ∀ p b, field (store p b) = field p) :
    Preserves field (fun p => assign p (rhs p) store) := by
  intro p
  show field (upkie.assign p (rhs p) store).params = field p
  unfold upkie.assign
  split
  · exact h p _
  · rfl

theorem preserves_monitor_contacts {α : Type} (field : Parameters → α) (bullet : Dictionary)
    (h : ∀ p l, field { p with monitor_contacts := l } = field p) :
    Preserves field (configure_monitor_contacts bullet) := by
  intro p
  unfold configure_monitor_contacts
  simp only
  split
  all_goals try split
  all_goals try split
  all_goals try split
  all_goals exact h p _

theorem preserves_joint_friction {α : Type} (field : Parameters → α) (bullet : Dictionary)
    (h : ∀ p m, field { p with joint_friction := m } = field p) :
    Preserves field (configure_joint_friction bullet) := by
  intro p
  unfold configure_joint_friction
  simp only
  split
  all_goals try split
  all_goals exact h p _

theorem preserves_reset {α : Type} (field : Parameters → α) (bullet : Dictionary)
    (h1 : ∀ p v, field { p with position_base_in_world := v } = field p)
    (h2 : ∀ p q, field { p with orientation_base_in_world := q } = field p)
    (h3 : ∀ p v, field { p with linear_velocity_base_to_world_in_world := v } = field p)
    (h4 : ∀ p v, field { p with angular_velocity_base_in_base := v } = field p) :
    Preserves field (configure_reset bullet) := by
  unfold configure_reset
  by_cases hr : bullet.has "reset" = true
  · cases hc : bullet.child "reset" with
    | error e => simpa [hr, hc] using preserves_skip field (some e)
    | ok reset =>
      simp only [hr, if_true]
      exact preserves_and_then (preserves_assign field _ _ h1)
        (preserves_and_then (preserves_assign field _ _ h2)
          (preserves_and_then (preserves_assign field _ _ h3) (preserves_assign field _ _ h4)))
  · simpa [hr] using preserves_skip field none

theorem preserves_torque_control {α : Type} (field : Parameters → α) (bullet : Dictionary)
    (h1 : ∀ p d, field { p with torque_control_kd := d } = field p)
    (h2 : ∀ p d, field { p with torque_control_kp := d } = field p) :
    Preserves field (configure_torque_control bullet) := by
  unfold configure_torque_control
  by_cases ht : bullet.has "torque_control" = true
  · simp only [ht, if_true]
    exact preserves_and_then (preserves_assign field _ _ h1) (preserves_assign field _ _ h2)
  · simpa [ht] using preserves_skip field none

theorem preserves_configure_bullet {α : Type} (field : Parameters → α) (bullet : Dictionary)
    (h1 : Preserves field (fun p => assign p
      (bullet.get_or Value.as_bool "follower_camera" p.follower_camera)
      (fun p b => { p with follower_camera := b })))
    (h2 : Preserves field (fun p => assign p (bullet.get_or Value.as_bool "gui" p.gui)
      (fun p b => { p with gui := b })))
    (h3 : Preserves field (configure_monitor_contacts bullet))
    (h4 : Preserves field (configure_joint_friction bullet))
    (h5 : Preserves field (configure_reset bullet))
    (h6 : Preserves field (configure_torque_control bullet)) :
    Preserves field (configure_bullet bullet) := by
  unfold configure_bullet
  exact preserves_and_then h1 (preserves_and_then h2 (preserves_and_then h3
    (preserves_and_then h4 (preserves_and_then h5 h6))))

theorem preserves_follower_camera_of_absent {α : Type} (field : Parameters → α)
    {bullet : Dictionary} (h : bullet.find "follower_camera" = none) :
    Preserves field (fun p => assign p
      (bullet.get_or Value.as_bool "follower_camera" p.follower_camera)
      (fun p b => { p with follower_camera := b })) := by
  intro p
  simp [Dictionary.get_or, h, upkie.assign]

theorem preserves_gui_of_absent {α : Type} (field : Parameters → α)
    {bullet : Dictionary} (h : bullet.find "gui" = none) :
    Preserves field (fun p => assign p (bullet.get_or Value.as_bool "gui" p.gui)
      (fun p b => { p with gui := b })) := by
  intro p
  simp [Dictionary.get_or, h, upkie.assign]

theorem preserves_reset_of_absent {α : Type} (field : Parameters → α)
    {bullet : Dictionary} (h : bullet.find "reset" = none) :
    Preserves field (configure_reset bullet) := by
  intro p
  simp [configure_reset, Dictionary.has, h]

theorem torque_control_gain_of_absent {bullet : Dictionary} {gain : String}
    (h : bullet.has_path ["torque_control", gain] = false) :
    ∃ e, torque_control_gain bullet gain = .error e := by
  unfold torque_control_gain
  cases h1 : bullet.child "torque_control" with
  | error e => exact ⟨e, rfl⟩
  | ok tc =>
    have hf : bullet.find "torque_control" = some tc := by
      unfold Dictionary.child at h1
      split at h1
      · split at h1
        · rename_i c hc; rw [hc]; injection h1 with h1; rw [h1]
        · cases h1
      · cases h1
    cases h2 : tc.child gain with
    | error e => exact ⟨e, by simp only [h2]⟩
    | ok d =>
      exfalso
      unfold Dictionary.child at h2
      split at h2
      · split at h2
        · rename_i c hc
          simp [Dictionary.has_path, hf, hc] at h
        · cases h2
      · cases h2

theorem preserves_kp_of_absent {bullet : Dictionary}
    (h : bullet.has_path ["torque_control", "kp"] = false) :
    Preserves (fun p => p.torque_control_kp) (configure_torque_control bullet) := by
  obtain ⟨e, he⟩ := torque_control_gain_of_absent h
  unfold configure_torque_control
  by_cases ht : bullet.has "torque_control" = true
  · simp only [ht, if_true, he]
    exact preserves_and_then (preserves_assign _ _ _ (fun _ _ => rfl)) (fun _ => rfl)
  · simpa [ht] using preserves_skip _ none

theorem preserves_kd_of_absent {bullet : Dictionary}
    (h : bullet.has_path ["torque_control", "kd"] = false) :
    Preserves (fun p => p.torque_control_kd) (configure_torque_control bullet) := by
  obtain ⟨e, he⟩ := torque_control_gain_of_absent h
  unfold configure_torque_control
  by_cases ht : bullet.has "torque_control" = true
  · simp only [ht, if_true, he]
    exact preserves_and_then (fun _ => rfl) (preserves_assign _ _ _ (fun _ _ => rfl))
  · simpa [ht] using preserves_skip _ none

theorem preserves_of_untouched {α : Type} (field : Parameters → α) (bullet : Dictionary)
    (h1 : Preserves field (fun p => assign p
      (bullet.get_or Value.as_bool "follower_camera" p.follower_camera)
      (fun p b => { p with follower_camera := b })))
    (h2 : Preserves field (fun p => assign p (bullet.get_or Value.as_bool "gui" p.gui)
      (fun p b => { p with gui := b })))
    (h5 : Preserves field (configure_reset bullet))
    (h6 : Preserves field (configure_torque_control bullet))
    (hm : ∀ p l, field { p with monitor_contacts := l } = field p)
    (hj : ∀ p m, field { p with joint_friction := m } = field p) :
    Preserves field (configure_bullet bullet) :=
  preserves_configure_bullet field bullet h1 h2 (preserves_monitor_contacts field bullet hm)
    (preserves_joint_friction field bullet hj) h5 h6

theorem configure_keeps_kp (p : Parameters) (config : Dictionary)
    (h : config.has_path ["bullet", "torque_control", "kp"] = false) :
    (Parameters.configure p config).params.torque_control_kp = p.torque_control_kp := by
  cases hb : config.find "bullet" with
  | none =>
    rw [configure_without_bullet p config (by simp [Dictionary.has, hb])]
  | some bullet =>
    rw [configure_of_find hb]
    have hf : bullet.has_path ["torque_control", "kp"] = false := by
      simpa [Dictionary.has_path, hb] using h
    exact preserves_configure_bullet (fun q => q.torque_control_kp) bullet
      (preserves_assign _ _ _ (fun _ _ => rfl))
      (preserves_assign _ _ _ (fun _ _ => rfl))
      (preserves_monitor_contacts _ bullet (fun _ _ => rfl))
      (preserves_joint_friction _ bullet (fun _ _ => rfl))
      (preserves_reset _ bullet (fun _ _ => rfl) (fun _ _ => rfl) (fun _ _ => rfl)
        (fun _ _ => rfl))
      (preserves_kp_of_absent hf) p

theorem configure_keeps_kd (p : Parameters) (config : Dictionary)
    (h : config.has_path ["bullet", "torque_control", "kd"] = false) :
    (Parameters.configure p config).params.torque_control_kd = p.torque_control_kd := by
  cases hb : config.find "bullet" with
  | none =>
    rw [configure_without_bullet p config (by simp [Dictionary.has, hb])]
  | some bullet =>
    rw [configure_of_find hb]
    have hf : bullet.has_path ["torque_control", "kd"] = false := by
      simpa [Dictionary.has_path, hb] using h
    exact preserves_configure_bullet (fun q => q.torque_control_kd) bullet
      (preserves_assign _ _ _ (fun _ _ => rfl))
      (preserves_assign _ _ _ (fun _ _ => rfl))
      (preserves_monitor_contacts _ bullet (fun _ _ => rfl))
      (preserves_joint_friction _ bullet (fun _ _ => rfl))
      (preserves_reset _ bullet (fun _ _ => rfl) (fun _ _ => rfl) (fun _ _ => rfl)
        (fun _ _ => rfl))
      (preserves_kd_of_absent hf) p

/-- C2, as the code has it: for every parameters `p` and configuration `c`,
`configure(c)` leaves follower_camera, gui, torque_control.kp and
torque_control.kd as they were in `p` when their own key is absent from `c`,
leaves the four reset.* base values as they were when `c` has no
bullet.reset section, and leaves everything, the monitored contacts and the
joint friction overrides included, as it was when `c` has no "bullet"
section. -/
theorem configure_frame (p : Parameters) (config : Dictionary) :
    (config.has_path ["bullet", "follower_camera"] = false →
      (Parameters.configure p config).params.follower_camera = p.follower_camera) ∧
    (config.has_path ["bullet", "gui"] = false →
      (Parameters.configure p config).params.gui = p.gui) ∧
    (config.has_path ["bullet", "reset"] = false →
      (Parameters.configure p config).params.position_base_in_world
        = p.position_base_in_world ∧
      (Parameters.configure p config).params.orientation_base_in_world
        = p.orientation_base_in_world ∧
      (Parameters.configure p config).params.linear_velocity_base_to_world_in_world
        = p.linear_velocity_base_to_world_in_world ∧
      (Parameters.configure p config).params.angular_velocity_base_in_base
        = p.angular_velocity_base_in_base) ∧
    (config.has_path ["bullet", "torque_control", "kp"] = false →
      (Parameters.configure p config).params.torque_control_kp = p.torque_control_kp) ∧
    (config.has_path ["bullet", "torque_control", "kd"] = false →
      (Parameters.configure p config).params.torque_control_kd = p.torque_control_kd) ∧
    (config.has_path ["bullet"] = false → (Parameters.configure p config).params = p) := by
  cases hb : config.find "bullet" with
  | none =>
    have h : Parameters.configure p config = ⟨p, none⟩ :=
      configure_without_bullet p config (by simp [Dictionary.has, hb])
    simp [h]
  | some bullet =>
    rw [configure_of_find hb]
    refine ⟨?_, ?_, ?_, ?_, ?_, ?_⟩
    · intro h
      have hf : bullet.find "follower_camera" = none := by
        cases hf : bullet.find "follower_camera" with
        | none => rfl
        | some c => simp [Dictionary.has_path, hb, hf] at h
      exact preserves_configure_bullet (fun q => q.follower_camera) bullet
        (preserves_follower_camera_of_absent _ hf)
        (preserves_assign _ _ _ (fun _ _ => rfl))
        (preserves_monitor_contacts _ bullet (fun _ _ => rfl))
        (preserves_joint_friction _ bullet (fun _ _ => rfl))
        (preserves_reset _ bullet (fun _ _ => rfl) (fun _ _ => rfl) (fun _ _ => rfl)
          (fun _ _ => rfl))
        (preserves_torque_control _ bullet (fun _ _ => rfl) (fun _ _ => rfl)) p
    · intro h
      have hf : bullet.find "gui" = none := by
        cases hf : bullet.find "gui" with
        | none => rfl
        | some c => simp [Dictionary.has_path, hb, hf] at h
      exact preserves_configure_bullet (fun q => q.gui) bullet
        (preserves_assign _ _ _ (fun _ _ => rfl))
        (preserves_gui_of_absent _ hf)
        (preserves_monitor_contacts _ bullet (fun _ _ => rfl))
        (preserves_joint_friction _ bullet (fun _ _ => rfl))
        (preserves_reset _ bullet (fun _ _ => rfl) (fun _ _ => rfl) (fun _ _ => rfl)
          (fun _ _ => rfl))
        (preserves_torque_control _ bullet (fun _ _ => rfl) (fun _ _ => rfl)) p
    · intro h
      have hf : bullet.find "reset" = none := by
        cases hf : bullet.find "reset" with
        | none => rfl
        | some c => simp [Dictionary.has_path, hb, hf] at h
      refine ⟨?_, ?_, ?_, ?_⟩
      · exact preserves_configure_bullet (fun q => q.position_base_in_world) bullet
          (preserves_assign _ _ _ (fun _ _ => rfl))
          (preserves_assign _ _ _ (fun _ _ => rfl))
          (preserves_monitor_contacts _ bullet (fun _ _ => rfl))
          (preserves_joint_friction _ bullet (fun _ _ => rfl))
          (preserves_reset_of_absent _ hf)
          (preserves_torque_control _ bullet (fun _ _ => rfl) (fun _ _ => rfl)) p
      · exact preserves_configure_bullet (fun q => q.orientation_base_in_world) bullet
          (preserves_assign _ _ _ (fun _ _ => rfl))
          (preserves_assign _ _ _ (fun _ _ => rfl))
          (preserves_monitor_contacts _ bullet (fun _ _ => rfl))
          (preserves_joint_friction _ bullet (fun _ _ => rfl))
          (preserves_reset_of_absent _ hf)
          (preserves_torque_control _ bullet (fun _ _ => rfl) (fun _ _ => rfl)) p
      · exact preserves_configure_bullet (fun q => q.linear_velocity_base_to_world_in_world) bullet
          (preserves_assign _ _ _ (fun _ _ => rfl))
          (preserves_assign _ _ _ (fun _ _ => rfl))
          (preserves_monitor_contacts _ bullet (fun _ _ => rfl))
          (preserves_joint_friction _ bullet (fun _ _ => rfl))
          (preserves_reset_of_absent _ hf)
          (preserves_torque_control _ bullet (fun _ _ => rfl) (fun _ _ => rfl)) p
      · exact preserves_configure_bullet (fun q => q.angular_velocity_base_in_base) bullet
          (preserves_assign _ _ _ (fun _ _ => rfl))
          (preserves_assign _ _ _ (fun _ _ => rfl))
          (preserves_monitor_contacts _ bullet (fun _ _ => rfl))
          (preserves_joint_friction _ bullet (fun _ _ => rfl))
          (preserves_reset_of_absent _ hf)
          (preserves_torque_control _ bullet (fun _ _ => rfl) (fun _ _ => rfl)) p
    · intro h
      rw [← configure_of_find hb]
      exact configure_keeps_kp p config h
    · intro h
      rw [← configure_of_find hb]
      exact configure_keeps_kd p config h
    · intro h
      simp [Dictionary.has_path, hb] at h

/-- C2 at the sample parameters and a configuration that only gives the
reset position: the keys gui and torque_control.kp are absent, and both
members keep their values. -/
theorem configure_frame_witness :
    reset_position_config.has_path ["bullet", "gui"] = false ∧
    reset_position_config.has_path ["bullet", "torque_control", "kp"] = false ∧
    (Parameters.configure sample_params reset_position_config).params.gui
      = sample_params.gui ∧
    (Parameters.configure sample_params reset_position_config).params.torque_control_kp
      = sample_params.torque_control_kp :=
  ⟨by decide, by decide,
   (configure_frame sample_params reset_position_config).2.1 (by decide),
   (configure_frame sample_params reset_position_config).2.2.2.1 (by decide)⟩

/-- C2 as stated fails: the configuration succeeds, its keys monitor.contacts,
joint_properties.left_wheel.friction and reset.orientation_base_in_world are
absent, and yet the monitored contacts and the friction overrides are emptied
and the reset orientation goes back to the identity. -/
theorem configure_frame_counterexample :
    (Parameters.configure sample_params reset_position_config).error = none ∧
    reset_position_config.has_path ["bullet", "monitor", "contacts"] = false ∧
    (Parameters.configure sample_params reset_position_config).params.monitor_contacts = [] ∧
    sample_params.monitor_contacts = ["left_wheel_tire"] ∧
    reset_position_config.has_path
      ["bullet", "joint_properties", "left_wheel", "friction"] = false ∧
    (Parameters.configure sample_params reset_position_config).params.joint_friction = [] ∧
    sample_params.joint_friction = [("left_wheel", .finite 2)] ∧
    reset_position_config.has_path ["bullet", "reset", "orientation_base_in_world"] = false ∧
    (Parameters.configure sample_params reset_position_config).params.orientation_base_in_world
      = Quaterniond.Identity ∧
    sample_params.orientation_base_in_world ≠ Quaterniond.Identity := by
  decide

/-! ## The feedback gains -/

theorem Outcome.and_then_of_error_none {o : Outcome} {t : Parameters → Outcome}
    (h : (o.and_then t).error = none) : o.and_then t = t o.params := by
  unfold Outcome.and_then at h ⊢
  split
  · rfl
  · rename_i e he
    rw [he] at h
    simp [he] at h

theorem configure_bullet_reaches_torque_control {bullet : Dictionary} {p : Parameters}
    (h : (configure_bullet bullet p).error = none) :
    ∃ q, configure_bullet bullet p = configure_torque_control bullet q := by
  unfold configure_bullet at h ⊢
  have e1 := Outcome.and_then_of_error_none h
  rw [e1] at h ⊢
  have e2 := Outcome.and_then_of_error_none h
  rw [e2] at h ⊢
  have e3 := Outcome.and_then_of_error_none h
  rw [e3] at h ⊢
  have e4 := Outcome.and_then_of_error_none h
  rw [e4] at h ⊢
  have e5 := Outcome.and_then_of_error_none h
  rw [e5]
  exact ⟨_, rfl⟩

theorem torque_control_gain_of_given {bullet tc : Dictionary} {gain : String} {d : Double}
    (ht : bullet.find "torque_control" = some tc)
    (hg : tc.find gain = some (.value (.double d))) :
    torque_control_gain bullet gain = .ok d := by
  simp [torque_control_gain, Dictionary.child_of_find ht, Dictionary.child_of_find hg,
    Dictionary.as, Value.as_double]

theorem configure_torque_control_of_given {bullet tc : Dictionary} {kp kd : Double}
    (ht : bullet.find "torque_control" = some tc)
    (hp : tc.find "kp" = some (.value (.double kp)))
    (hd : tc.find "kd" = some (.value (.double kd))) (q : Parameters) :
    configure_torque_control bullet q
      = ⟨{ q with torque_control_kd := kd, torque_control_kp := kp }, none⟩ := by
  simp [configure_torque_control, Dictionary.has_of_find ht,
    torque_control_gain_of_given ht hp, torque_control_gain_of_given ht hd,
    upkie.assign, Outcome.and_then]

theorem configure_torque_control_of_missing {bullet tc : Dictionary} {gain : String}
    (ht : bullet.find "torque_control" = some tc) (hg : tc.has gain = false)
    (hgain : gain = "kp" ∨ gain = "kd") (q : Parameters) :
    (configure_torque_control bullet q).error ≠ none := by
  have habs : bullet.has_path ["torque_control", gain] = false := by
    simp [Dictionary.has_path, ht, Dictionary.find_of_has_eq_false hg]
  obtain ⟨e, he⟩ := torque_control_gain_of_absent habs
  unfold configure_torque_control
  simp only [Dictionary.has_of_find ht, if_true]
  rcases hgain with rfl | rfl
  · cases hkd : torque_control_gain bullet "kd" with
    | error e2 => simp [upkie.assign, Outcome.and_then]
    | ok d => simp [upkie.assign, Outcome.and_then, he]
  · simp [upkie.assign, Outcome.and_then, he]

theorem configure_error_of_missing {config bullet tc : Dictionary} {gain : String}
    (hb : config.find "bullet" = some bullet)
    (ht : bullet.find "torque_control" = some tc) (hg : tc.has gain = false)
    (hgain : gain = "kp" ∨ gain = "kd") (p : Parameters) :
    (Parameters.configure p config).error ≠ none := by
  rw [configure_of_find hb]
  intro h
  obtain ⟨q, hq⟩ := configure_bullet_reaches_torque_control h
  rw [hq] at h
  exact configure_torque_control_of_missing ht hg hgain q h

/-- C3, as the code has it: the torque_control section is optional as a
whole, not gain by gain. Fresh parameters have kp = 20 and kd = 1. When the
configuration has no bullet.torque_control section, `configure` leaves both
gains at their prior values. When the section gives both gains as doubles
and `configure` succeeds, both gains are set to the given values. When the
section lacks one of the two gains, `configure` ends with an exception and
the gain that is not given keeps its prior value. -/
theorem torque_control_gains (p : Parameters) (config : Dictionary) :
    ({} : Parameters).torque_control_kp = .finite 20 ∧
    ({} : Parameters).torque_control_kd = .finite 1 ∧
    (config.has_path ["bullet", "torque_control"] = false →
      (Parameters.configure p config).params.torque_control_kp = p.torque_control_kp ∧
      (Parameters.configure p config).params.torque_control_kd = p.torque_control_kd) ∧
    (∀ bullet tc kp kd, config.find "bullet" = some bullet →
      bullet.find "torque_control" = some tc →
      tc.find "kp" = some (.value (.double kp)) →
      tc.find "kd" = some (.value (.double kd)) →
      (Parameters.configure p config).error = none →
      (Parameters.configure p config).params.torque_control_kp = kp ∧
      (Parameters.configure p config).params.torque_control_kd = kd) ∧
    (∀ bullet tc, config.find "bullet" = some bullet →
      bullet.find "torque_control" = some tc →
      (tc.has "kp" = false →
        (Parameters.configure p config).error ≠ none ∧
        (Parameters.configure p config).params.torque_control_kp = p.torque_control_kp) ∧
      (tc.has "kd" = false →
        (Parameters.configure p config).error ≠ none ∧
        (Parameters.configure p config).params.torque_control_kd = p.torque_control_kd)) := by
  refine ⟨rfl, rfl, ?_, ?_, ?_⟩
  · intro h
    exact ⟨configure_keeps_kp p config (Dictionary.has_path_append config _ ["kp"] h),
      configure_keeps_kd p config (Dictionary.has_path_append config _ ["kd"] h)⟩
  · intro bullet tc kp kd hb ht hp hd h
    rw [configure_of_find hb] at h ⊢
    obtain ⟨q, hq⟩ := configure_bullet_reaches_torque_control h
    rw [hq, configure_torque_control_of_given ht hp hd]
    exact ⟨rfl, rfl⟩
  · intro bullet tc hb ht
    constructor
    · intro hg
      refine ⟨configure_error_of_missing hb ht hg (Or.inl rfl) p, configure_keeps_kp p config ?_⟩
      simp [Dictionary.has_path, hb, ht, Dictionary.find_of_has_eq_false hg]
    · intro hg
      refine ⟨configure_error_of_missing hb ht hg (Or.inr rfl) p, configure_keeps_kd p config ?_⟩
      simp [Dictionary.has_path, hb, ht, Dictionary.find_of_has_eq_false hg]

/-- C3 at a configuration that gives both gains, kp = 40 and kd = 2, applied
to fresh parameters: `configure` succeeds and sets both. -/
theorem torque_control_gains_witness :
    (Parameters.configure {} (torque_control_config
      [("kd", .value (.double (.finite 2))), ("kp", .value (.double (.finite 40)))])).error
      = none ∧
    (Parameters.configure {} (torque_control_config
      [("kd", .value (.double (.finite 2))), ("kp", .value (.double (.finite 40)))])
      ).params.torque_control_kp = .finite 40 ∧
    (Parameters.configure {} (torque_control_config
      [("kd", .value (.double (.finite 2))), ("kp", .value (.double (.finite 40)))])
      ).params.torque_control_kd = .finite 2 :=
  ⟨by decide,
   (torque_control_gains {} (torque_control_config
      [("kd", .value (.double (.finite 2))), ("kp", .value (.double (.finite 40)))])).2.2.2.1
      _ _ _ _ rfl rfl rfl rfl (by decide)⟩

/-- C3 as stated fails: a torque_control section that gives only kp makes
`configure` throw a key error for kd, with kp still at its default 20 and not
at the given 5; one that gives only kd makes it throw a key error for kp; and
neither configuration builds parameters. -/
theorem torque_control_gains_counterexample :
    (Parameters.configure {} (torque_control_config
      [("kp", .value (.double (.finite 5)))])).error = some (.KeyError "kd") ∧
    (Parameters.configure {} (torque_control_config
      [("kp", .value (.double (.finite 5)))])).params.torque_control_kp = .finite 20 ∧
    (Parameters.configure {} (torque_control_config
      [("kd", .value (.double (.finite 5)))])).error = some (.KeyError "kp") ∧
    Parameters.from_config (torque_control_config [("kp", .value (.double (.finite 5)))])
      = .error (.KeyError "kd") ∧
    Parameters.from_config (torque_control_config [("kd", .value (.double (.finite 5)))])
      = .error (.KeyError "kp") :=
  ⟨by decide, by decide, by decide, rfl, rfl⟩

/-! ## Joint torque -/

/-- C5, as the specification has it: for every joint state, gains and
command, when `maximum_torque` is non-negative the torque returned lies
between `-maximum_torque` and `+maximum_torque` and is the feedforward torque
plus the two feedback terms, clamped to that range; when `maximum_torque` is
non-positive the torque returned is exactly 0. -/
theorem compute_joint_torque_bounds (kp_base kd_base : ℚ) (joint : JointState)
    (feedforward_torque target_position target_velocity kp_scale kd_scale
      maximum_torque : ℚ) :
    (0 ≤ maximum_torque →
      -maximum_torque ≤ compute_joint_torque kp_base kd_base joint feedforward_torque
          target_position target_velocity kp_scale kd_scale maximum_torque ∧
      compute_joint_torque kp_base kd_base joint feedforward_torque
          target_position target_velocity kp_scale kd_scale maximum_torque ≤ maximum_torque ∧
      compute_joint_torque kp_base kd_base joint feedforward_torque
          target_position target_velocity kp_scale kd_scale maximum_torque
        = clamp (feedforward_torque
            + kp_scale * kp_base * (target_position - joint.measured_position)
            + kd_scale * kd_base * (target_velocity - joint.measured_velocity))
          (-maximum_torque) maximum_torque) ∧
    (maximum_torque ≤ 0 →
      compute_joint_torque kp_base kd_base joint feedforward_torque
          target_position target_velocity kp_scale kd_scale maximum_torque = 0) := by
  constructor
  · intro h
    by_cases h0 : maximum_torque ≤ 0
    · have hz : maximum_torque = 0 := le_antisymm h0 h
      subst hz
      simp [compute_joint_torque, clamp]
    · have hpos : 0 < maximum_torque := lt_of_not_ge h0
      have heq : compute_joint_torque kp_base kd_base joint feedforward_torque
          target_position target_velocity kp_scale kd_scale maximum_torque
          = clamp (feedforward_torque
              + kp_scale * kp_base * (target_position - joint.measured_position)
              + kd_scale * kd_base * (target_velocity - joint.measured_velocity))
            (-maximum_torque) maximum_torque := by
        simp only [compute_joint_torque, if_neg h0]
      rw [heq]
      exact ⟨le_max_left _ _, max_le (by linarith) (min_le_right _ _), rfl⟩
  · intro h
    simp [compute_joint_torque, h]

/-- C5 at a joint at rest asked to move by one radian with gains kp = 20 and
kd = 1 and a maximum torque of 2: the torque is within [-2, 2]. -/
theorem compute_joint_torque_bounds_witness :
    (0 : ℚ) ≤ 2 ∧
    -2 ≤ compute_joint_torque 20 1 ⟨0, 0⟩ 0 1 0 1 1 2 ∧
    compute_joint_torque 20 1 ⟨0, 0⟩ 0 1 0 1 1 2 ≤ 2 :=
  ⟨by norm_num,
   ((compute_joint_torque_bounds 20 1 ⟨0, 0⟩ 0 1 0 1 1 2).1 (by norm_num)).1,
   ((compute_joint_torque_bounds 20 1 ⟨0, 0⟩ 0 1 0 1 1 2).1 (by norm_num)).2.1⟩

/-- C5 as stated fails: with a maximum torque of -1 the result is 0, which
does not lie between `-maximum_torque` = 1 and `+maximum_torque` = -1. -/
theorem compute_joint_torque_counterexample :
    compute_joint_torque 20 1 ⟨0, 0⟩ 0 1 0 1 1 (-1) = 0 ∧
    ¬ (-(-1 : ℚ) ≤ compute_joint_torque 20 1 ⟨0, 0⟩ 0 1 0 1 1 (-1) ∧
       compute_joint_torque 20 1 ⟨0, 0⟩ 0 1 0 1 1 (-1) ≤ -1) := by
  decide

/-! ## Request state machine -/

theorem Request.to_uint32_of_uint32 {value : Nat} {r : Request}
    (h : Request.of_uint32 value = some r) : r.to_uint32 = value % uint32_modulus := by
  unfold Request.of_uint32 at h
  split at h
  · cases h; simp [Request.to_uint32, *]
  · split at h
    · cases h; simp [Request.to_uint32, *]; decide
    · split at h
      · cases h; simp [Request.to_uint32, *]; decide
      · split at h
        · cases h; simp [Request.to_uint32, *]; decide
        · split at h
          · cases h; simp [Request.to_uint32, *]; decide
          · cases h

theorem Request.run_append (flag : Request) (before after : List Event) :
    Request.run flag (before ++ after)
      = match Request.run flag before with
        | some reached => Request.run reached after
        | none => none := by
  induction before generalizing flag with
  | nil => rfl
  | cons event rest ih =>
    simp only [List.cons_append, Request.run]
    cases flag.step event with
    | none => rfl
    | some next => exact ih next

theorem Request.run_snoc {flag reached : Request} {events : List Event}
    (h : Request.run flag events = some reached) (event : Event) :
    Request.run flag (events ++ [event]) = reached.step event := by
  rw [Request.run_append, h]
  simp only [Request.run]
  cases reached.step event <;> rfl

theorem acceptable_write_iff (value : Nat) :
    acceptable_write value = true ↔
      (value % uint32_modulus = 1 ∨ value % uint32_modulus = 2 ∨
        value % uint32_modulus = 3) := by
  unfold acceptable_write Request.of_uint32
  by_cases h0 : value % uint32_modulus = 0
  · simp [h0]
  · by_cases h1 : value % uint32_modulus = 1
    · simp [h1]
    · by_cases h2 : value % uint32_modulus = 2
      · simp [h2]
      · by_cases h3 : value % uint32_modulus = 3
        · simp [h3]
        · by_cases h4 : value % uint32_modulus = 4
          · simp [h4]
          · simp [h0, h1, h2, h3, h4]

theorem step_unacceptable_write {value : Nat} (h : acceptable_write value = false) :
    Request.kNone.step (.agent_write value) = some .kError := by
  simp [Request.step, h]

theorem step_acceptable_write {value : Nat} (h : acceptable_write value = true) :
    ∃ next, Request.kNone.step (.agent_write value) = some next ∧
      (next = .kAction ∨ next = .kStart ∨ next = .kStop) ∧
      next.to_uint32 = value % uint32_modulus := by
  simp only [Request.step, h, if_true]
  cases hv : Request.of_uint32 value with
  | none => simp [acceptable_write, hv] at h
  | some next =>
    refine ⟨next, rfl, ?_, Request.to_uint32_of_uint32 hv⟩
    unfold acceptable_write at h
    rw [hv] at h
    cases next <;> simp at h ⊢

theorem step_invalid_never_none {flag next : Request} {event : Event}
    (hinv : event.is_invalid = true) (hstep : flag.step event = some next) :
    next = .kError := by
  cases event with
  | agent_write value =>
    simp [Event.is_invalid] at hinv
    cases flag <;> simp [Request.step, hinv] at hstep
    exact hstep.symm
  | spine_process payload_valid =>
    simp [Event.is_invalid] at hinv
    subst hinv
    cases flag <;> simp [Request.step] at hstep <;> exact hstep.symm
  | spine_acknowledge => simp [Event.is_invalid] at hinv

/-- C9: in the request state machine the acceptable agent writes are exactly
the values 1, 2 and 3 of `Action`, `Start` and `Stop`. From `None` an
acceptable write is a transition to the request written, and any other write
is a transition to `Error`. A pending `Action`, `Start` or `Stop` whose
payload the spine finds invalid is a transition to `Error`, and one whose
payload is valid is a transition to `None`. On every run from `None`: an
unacceptable write made when the run has reached `None` takes the run to
`Error`, an invalid payload found when the run has reached a pending request
takes the run to `Error`, and no run ever ends with an invalid request taking
the flag anywhere but to `Error`, in particular never to `None`. -/
theorem request_invalid_never_completed :
    (∀ value, acceptable_write value = true ↔
      (value % uint32_modulus = 1 ∨ value % uint32_modulus = 2 ∨
        value % uint32_modulus = 3)) ∧
    (∀ value, acceptable_write value = true →
      ∃ next, Request.kNone.step (.agent_write value) = some next ∧
        (next = .kAction ∨ next = .kStart ∨ next = .kStop) ∧
        next.to_uint32 = value % uint32_modulus) ∧
    (∀ value, acceptable_write value = false →
      Request.kNone.step (.agent_write value) = some .kError) ∧
    (∀ flag : Request, flag = .kAction ∨ flag = .kStart ∨ flag = .kStop →
      flag.step (.spine_process false) = some .kError ∧
      flag.step (.spine_process true) = some .kNone) ∧
    (∀ events value, Request.run .kNone events = some .kNone →
      acceptable_write value = false →
      Request.run .kNone (events ++ [.agent_write value]) = some .kError) ∧
    (∀ events flag, Request.run .kNone events = some flag →
      flag = .kAction ∨ flag = .kStart ∨ flag = .kStop →
      Request.run .kNone (events ++ [.spine_process false]) = some .kError) ∧
    (∀ events event next, Request.run .kNone (events ++ [event]) = some next →
      event.is_invalid = true → next = .kError ∧ next ≠ .kNone) ∧
    (∀ value next, Request.kNone.step (.agent_write value) = some next →
      (acceptable_write value = true →
        (next = .kAction ∨ next = .kStart ∨ next = .kStop) ∧
        next.to_uint32 = value % uint32_modulus) ∧
      (acceptable_write value = false → next = .kError)) ∧
    (∀ events flag event next, Request.run .kNone events = some flag →
      event.is_invalid = true → flag.step event = some next →
      next = .kError ∧ next ≠ .kNone) := by
  refine ⟨acceptable_write_iff, fun _ h => step_acceptable_write h,
    fun _ h => step_unacceptable_write h, ?_, ?_, ?_, ?_, ?_, ?_⟩
  · intro flag h
    rcases h with rfl | rfl | rfl <;> exact ⟨rfl, rfl⟩
  · intro events value hrun h
    rw [Request.run_snoc hrun, step_unacceptable_write h]
  · intro events flag hrun h
    rw [Request.run_snoc hrun]
    rcases h with rfl | rfl | rfl <;> rfl
  · intro events event next hrun hinv
    rw [Request.run_append] at hrun
    cases hreach : Request.run .kNone events with
    | none => simp [hreach] at hrun
    | some flag =>
      simp only [hreach, Request.run] at hrun
      cases hstep : flag.step event with
      | none => simp [hstep] at hrun
      | some reached =>
        simp only [hstep] at hrun
        have hnext : reached = .kError := step_invalid_never_none hinv hstep
        cases hrun
        subst hnext
        exact ⟨rfl, by decide⟩
  · intro value next h
    constructor
    · intro ha
      obtain ⟨found, hfound, hkind, hvalue⟩ := step_acceptable_write ha
      rw [hfound] at h
      cases h
      exact ⟨hkind, hvalue⟩
    · intro ha
      rw [step_unacceptable_write ha] at h
      cases h
      rfl
  · intro events flag event next _ hinv hstep
    have hnext : next = .kError := step_invalid_never_none hinv hstep
    subst hnext
    exact ⟨rfl, by decide⟩

/-- C9 on a run: the agent writes `Action`, the spine finds the payload
invalid, and the run ends at `Error`; and a write of the value 7 at `None`
takes the run to `Error` as well. -/
theorem request_invalid_never_completed_witness :
    Request.run .kNone [.agent_write 1] = some .kAction ∧
    Request.run .kNone ([.agent_write 1] ++ [.spine_process false]) = some .kError ∧
    Request.run .kNone [] = some .kNone ∧
    acceptable_write 7 = false ∧
    Request.run .kNone ([] ++ [.agent_write 7]) = some .kError :=
  ⟨by decide,
   request_invalid_never_completed.2.2.2.2.2.1 [.agent_write 1] .kAction (by decide)
     (Or.inl rfl),
   by decide, by decide,
   request_invalid_never_completed.2.2.2.2.1 [] 7 (by decide) (by decide)⟩

/-! ## Link index memoization -/

theorem lookup_cons_self {β : Type} (key : String) (v : β) (rest : List (String × β)) :
    List.lookup key ((key, v) :: rest) = some v := by
  simp [List.lookup]

theorem lookup_cons_of_ne {β : Type} {key k : String} (v : β) (rest : List (String × β))
    (h : ¬ key = k) : List.lookup key ((k, v) :: rest) = List.lookup key rest := by
  have hb : (key == k) = false := by simpa using h
  simp [List.lookup, hb]

theorem lookup_try_emplace_self {β : Type} (m : List (String × β)) (key : String) (value : β)
    (h : m.lookup key = none) : (try_emplace m key value).lookup key = some value := by
  induction m with
  | nil => exact lookup_cons_self key value []
  | cons e rest ih =>
    obtain ⟨k, v⟩ := e
    have hne : ¬ key = k := by
      intro heq
      subst heq
      rw [lookup_cons_self] at h
      cases h
    have hrest : rest.lookup key = none := by
      rwa [lookup_cons_of_ne v rest hne] at h
    simp only [try_emplace, if_neg hne]
    split
    · exact lookup_cons_self key value _
    · rw [lookup_cons_of_ne v _ hne]
      exact ih hrest

theorem lookup_try_emplace_other {β : Type} (m : List (String × β)) (key : String) (value : β)
    (other : String) (hne : ¬ other = key) :
    (try_emplace m key value).lookup other = m.lookup other := by
  induction m with
  | nil =>
    simp only [try_emplace]
    rw [lookup_cons_of_ne value [] hne]
  | cons e rest ih =>
    obtain ⟨k, v⟩ := e
    simp only [try_emplace]
    split
    · rfl
    · split
      · rw [lookup_cons_of_ne value _ hne]
      · by_cases hk : other = k
        · subst hk
          rw [lookup_cons_self, lookup_cons_self]
        · rw [lookup_cons_of_ne v _ hk, lookup_cons_of_ne v _ hk, ih]

theorem find_link_index_from_of_not_mem (link_name : String) (links : List String)
    (index : Int) (h : link_name ∉ links) :
    find_link_index_from link_name links index = -1 := by
  induction links generalizing index with
  | nil => rfl
  | cons name rest ih =>
    have hne : ¬ name = link_name := fun heq => h (by simp [heq])
    have hrest : link_name ∉ rest := fun hm => h (List.mem_cons_of_mem _ hm)
    simp [find_link_index_from, hne, ih _ hrest]

theorem find_link_index_from_of_mem (link_name : String) (links : List String)
    (index : Int) (h : link_name ∈ links) :
    ∃ i : Nat, find_link_index_from link_name links index = index + i ∧
      links[i]? = some link_name := by
  induction links generalizing index with
  | nil => simp at h
  | cons name rest ih =>
    by_cases heq : name = link_name
    · exact ⟨0, by simp [find_link_index_from, heq]⟩
    · have hrest : link_name ∈ rest := by
        rcases List.mem_cons.1 h with h1 | h1
        · exact absurd h1.symm heq
        · exact h1
      obtain ⟨i, hi, hget⟩ := ih (index + 1) hrest
      refine ⟨i + 1, ?_, by simpa using hget⟩
      simp only [find_link_index_from, if_neg heq, hi]
      push_cast
      ring

theorem get_link_index_of_cached {links : List String} {cache : LinkIndexCache}
    {link_name : String} {index : Int} (h : cache.link_index_.lookup link_name = some index) :
    get_link_index links cache link_name = (index, cache) := by
  simp [get_link_index, h]

theorem get_link_index_result {links : List String} {cache : LinkIndexCache}
    (h : CacheAgrees links cache) (link_name : String) :
    (get_link_index links cache link_name).1 = find_link_index links link_name := by
  unfold get_link_index
  cases hc : cache.link_index_.lookup link_name with
  | none => rfl
  | some index => exact h _ _ hc

theorem get_link_index_agrees {links : List String} {cache : LinkIndexCache}
    (h : CacheAgrees links cache) (link_name : String) :
    CacheAgrees links (get_link_index links cache link_name).2 := by
  unfold get_link_index
  cases hc : cache.link_index_.lookup link_name with
  | some index => exact h
  | none =>
    intro name index hl
    by_cases hn : name = link_name
    · subst hn
      simp only [lookup_try_emplace_self _ _ _ hc] at hl
      exact (Option.some.inj hl).symm
    · simp only [lookup_try_emplace_other _ _ _ _ hn] at hl
      exact h _ _ hl

theorem get_link_index_caches (links : List String) (cache : LinkIndexCache)
    (link_name : String) :
    ∃ index, (get_link_index links cache link_name).2.link_index_.lookup link_name
      = some index := by
  unfold get_link_index
  cases hc : cache.link_index_.lookup link_name with
  | some index => exact ⟨index, hc⟩
  | none => exact ⟨_, lookup_try_emplace_self _ _ _ hc⟩

theorem get_link_index_keeps {links : List String} {cache : LinkIndexCache}
    {name : String} {index : Int} (h : cache.link_index_.lookup name = some index)
    (link_name : String) :
    (get_link_index links cache link_name).2.link_index_.lookup name = some index := by
  unfold get_link_index
  cases hc : cache.link_index_.lookup link_name with
  | some found => exact h
  | none =>
    have hn : ¬ name = link_name := by
      intro heq
      subst heq
      rw [hc] at h
      cases h
    simpa [lookup_try_emplace_other _ _ _ _ hn] using h

theorem get_link_indices_keeps {links : List String} {name : String} {index : Int}
    (names : List String) {cache : LinkIndexCache}
    (h : cache.link_index_.lookup name = some index) :
    (get_link_indices links cache names).2.link_index_.lookup name = some index := by
  induction names generalizing cache with
  | nil => exact h
  | cons link_name rest ih => exact ih (get_link_index_keeps h link_name)

theorem get_link_indices_results {links : List String} (names : List String)
    {cache : LinkIndexCache} (h : CacheAgrees links cache) :
    (get_link_indices links cache names).1 = names.map (find_link_index links) := by
  induction names generalizing cache with
  | nil => rfl
  | cons link_name rest ih =>
    simp [get_link_indices, get_link_index_result h, ih (get_link_index_agrees h link_name)]

theorem get_link_indices_agrees {links : List String} (names : List String)
    {cache : LinkIndexCache} (h : CacheAgrees links cache) :
    CacheAgrees links (get_link_indices links cache names).2 := by
  induction names generalizing cache with
  | nil => exact h
  | cons link_name rest ih => exact ih (get_link_index_agrees h link_name)

theorem get_link_indices_append (links : List String) (before after : List String)
    (cache : LinkIndexCache) :
    (get_link_indices links cache (before ++ after)).2
      = (get_link_indices links (get_link_indices links cache before).2 after).2 := by
  induction before generalizing cache with
  | nil => rfl
  | cons link_name rest ih => simp [get_link_indices, ih]

theorem cacheAgrees_empty (links : List String) : CacheAgrees links {} := by
  intro name index h
  simp [List.lookup] at h

theorem get_link_index_of_missing {links : List String} {cache : LinkIndexCache}
    {link_name : String} (h : cache.link_index_.lookup link_name = none) :
    get_link_index links cache link_name
      = (find_link_index links link_name,
         { link_index_ := try_emplace cache.link_index_ link_name
             (find_link_index links link_name)
           scans := cache.scans + 1 }) := by
  simp [get_link_index, h]

theorem lookup_eq_none_iff_not_mem_keys {β : Type} (m : List (String × β)) (key : String) :
    m.lookup key = none ↔ key ∉ m.map Prod.fst := by
  induction m with
  | nil => simp [List.lookup]
  | cons e rest ih =>
    obtain ⟨k, v⟩ := e
    by_cases hk : key = k
    · subst hk
      simp [lookup_cons_self]
    · rw [lookup_cons_of_ne v rest hk, ih]
      simp [hk]

theorem keys_try_emplace_perm {β : Type} (m : List (String × β)) (key : String) (value : β)
    (h : m.lookup key = none) :
    List.Perm ((try_emplace m key value).map Prod.fst) (key :: m.map Prod.fst) := by
  induction m with
  | nil => exact List.Perm.refl _
  | cons e rest ih =>
    obtain ⟨k, v⟩ := e
    have hne : ¬ key = k := by
      intro heq
      subst heq
      rw [lookup_cons_self] at h
      cases h
    have hrest : rest.lookup key = none := by
      rwa [lookup_cons_of_ne v rest hne] at h
    simp only [try_emplace, if_neg hne]
    split
    · exact List.Perm.refl _
    · simp only [List.map_cons]
      exact ((ih hrest).cons k).trans (List.Perm.swap key k _)

theorem get_link_index_counts (links : List String) {seen : List String}
    {cache : LinkIndexCache} (h : CacheCounts seen cache) (link_name : String) :
    CacheCounts (seen ++ [link_name]) (get_link_index links cache link_name).2 := by
  obtain ⟨hnodup, hmem, hscans⟩ := h
  cases hc : cache.link_index_.lookup link_name with
  | some index =>
    rw [get_link_index_of_cached hc]
    have hin : link_name ∈ cache.link_index_.map Prod.fst := by
      by_contra hnot
      rw [(lookup_eq_none_iff_not_mem_keys _ _).2 hnot] at hc
      cases hc
    refine ⟨hnodup, fun name => ?_, hscans⟩
    rw [hmem name, List.mem_append, List.mem_singleton]
    constructor
    · exact Or.inl
    · rintro (h1 | h1)
      · exact h1
      · rw [h1]
        exact (hmem link_name).1 hin
  | none =>
    rw [get_link_index_of_missing hc]
    have hperm := keys_try_emplace_perm cache.link_index_ link_name
      (find_link_index links link_name) hc
    have hnot : link_name ∉ cache.link_index_.map Prod.fst :=
      (lookup_eq_none_iff_not_mem_keys _ _).1 hc
    refine ⟨?_, fun name => ?_, ?_⟩
    · exact hperm.nodup_iff.2 (List.nodup_cons.2 ⟨hnot, hnodup⟩)
    · show name ∈ (try_emplace cache.link_index_ link_name _).map Prod.fst ↔ _
      rw [hperm.mem_iff, List.mem_cons, hmem name, List.mem_append, List.mem_singleton]
      exact or_comm
    · show cache.scans + 1 = ((try_emplace cache.link_index_ link_name _).map Prod.fst).length
      rw [hperm.length_eq, List.length_cons, hscans]

theorem get_link_indices_counts (links : List String) (names : List String)
    {seen : List String} {cache : LinkIndexCache} (h : CacheCounts seen cache) :
    CacheCounts (seen ++ names) (get_link_indices links cache names).2 := by
  induction names generalizing seen cache with
  | nil => simpa [get_link_indices] using h
  | cons link_name rest ih =>
    have hnext := ih (get_link_index_counts links h link_name)
    simpa [get_link_indices, List.append_assoc] using hnext

theorem cacheCounts_empty : CacheCounts [] {} := by
  refine ⟨by simp, fun name => by simp, rfl⟩

/-- C7: for every sequence of lookups made from a fresh interface,
`get_link_index` returns what the uncached scan of the link table returns,
which is the position of the link in the table when the name is one of its
links and the sentinel -1 otherwise. A lookup of a name that is not in the
cache scans the table, which raises the count of scans by one, and stores the
index found under the name; a lookup of a name that is in the cache returns
the stored index and leaves the cache and the count of scans as they were. So
once a name has been looked up, a later lookup of it returns that same index
without another scan, and a sequence of lookups makes one scan for each
distinct name in it. -/
theorem get_link_index_memoized (links : List String) :
    (∀ names, (get_link_indices links {} names).1 = names.map (find_link_index links)) ∧
    (∀ name, name ∈ links →
      ∃ i : Nat, find_link_index links name = i ∧ links[i]? = some name) ∧
    (∀ name, name ∉ links → find_link_index links name = -1) ∧
    (∀ before name after,
      get_link_index links (get_link_indices links {} (before ++ name :: after)).2 name
        = (find_link_index links name,
           (get_link_indices links {} (before ++ name :: after)).2)) ∧
    (∀ (cache : LinkIndexCache) name, cache.link_index_.lookup name = none →
      (get_link_index links cache name).1 = find_link_index links name ∧
      (get_link_index links cache name).2.scans = cache.scans + 1 ∧
      (get_link_index links cache name).2.link_index_.lookup name
        = some (find_link_index links name) ∧
      (∀ other, other ≠ name →
        (get_link_index links cache name).2.link_index_.lookup other
          = cache.link_index_.lookup other)) ∧
    (∀ (cache : LinkIndexCache) name index, cache.link_index_.lookup name = some index →
      get_link_index links cache name = (index, cache)) ∧
    (∀ name, (get_link_index links {} name).2.scans = 1 ∧
      (get_link_index links {} name).2.link_index_.lookup name
        = some (find_link_index links name)) ∧
    (∀ names, (get_link_indices links {} names).2.scans = names.toFinset.card) := by
  have hmiss : ∀ (cache : LinkIndexCache) name, cache.link_index_.lookup name = none →
      (get_link_index links cache name).1 = find_link_index links name ∧
      (get_link_index links cache name).2.scans = cache.scans + 1 ∧
      (get_link_index links cache name).2.link_index_.lookup name
        = some (find_link_index links name) ∧
      (∀ other, other ≠ name →
        (get_link_index links cache name).2.link_index_.lookup other
          = cache.link_index_.lookup other) := by
    intro cache name h
    rw [get_link_index_of_missing h]
    exact ⟨rfl, rfl, lookup_try_emplace_self _ _ _ h,
      fun other hne => lookup_try_emplace_other _ _ _ _ hne⟩
  refine ⟨fun names => get_link_indices_results names (cacheAgrees_empty links), ?_, ?_, ?_,
    hmiss, fun cache name index h => get_link_index_of_cached h, ?_, ?_⟩
  · intro name h
    obtain ⟨i, hi, hget⟩ := find_link_index_from_of_mem name links 0 h
    exact ⟨i, by simpa [find_link_index] using hi, hget⟩
  · intro name h
    exact find_link_index_from_of_not_mem name links 0 h
  · intro before name after
    have hagrees := get_link_indices_agrees (before ++ name :: after) (cacheAgrees_empty links)
    rw [get_link_indices_append] at hagrees ⊢
    obtain ⟨index, hindex⟩ :=
      get_link_index_caches links (get_link_indices links {} before).2 name
    have hcached : (get_link_indices links (get_link_indices links {} before).2
        (name :: after)).2.link_index_.lookup name = some index :=
      get_link_indices_keeps after hindex
    rw [get_link_index_of_cached hcached, hagrees _ _ hcached]
  · intro name
    have h := hmiss {} name rfl
    exact ⟨h.2.1, h.2.2.1⟩
  · intro names
    obtain ⟨hnodup, hmem, hscans⟩ :=
      get_link_indices_counts links names cacheCounts_empty
    rw [hscans, ← List.toFinset_card_of_nodup hnodup]
    congr 1
    ext name
    simpa using hmem name

/-- C7 on a robot with three links: the wheel tire is link 2, an unknown name
gives -1, the first lookup of the tire makes one scan and stores 2, looking
the tire up again after two lookups changes nothing, and four lookups of two
names make two scans. -/
theorem get_link_index_memoized_witness :
    "left_wheel_tire" ∈ ["base", "imu", "left_wheel_tire"] ∧
    "nope" ∉ ["base", "imu", "left_wheel_tire"] ∧
    find_link_index ["base", "imu", "left_wheel_tire"] "nope" = -1 ∧
    find_link_index ["base", "imu", "left_wheel_tire"] "left_wheel_tire" = 2 ∧
    get_link_index ["base", "imu", "left_wheel_tire"] {} "left_wheel_tire"
      = (2, ⟨[("left_wheel_tire", 2)], 1⟩) ∧
    (get_link_index ["base", "imu", "left_wheel_tire"] {} "left_wheel_tire").2.scans
      = (0 : Nat) + 1 ∧
    get_link_index ["base", "imu", "left_wheel_tire"]
        (get_link_indices ["base", "imu", "left_wheel_tire"] {}
          ([] ++ "left_wheel_tire" :: ["nope"])).2 "left_wheel_tire"
      = (find_link_index ["base", "imu", "left_wheel_tire"] "left_wheel_tire",
         (get_link_indices ["base", "imu", "left_wheel_tire"] {}
          ([] ++ "left_wheel_tire" :: ["nope"])).2) ∧
    (get_link_indices ["base", "imu", "left_wheel_tire"] {}
      ["left_wheel_tire", "nope", "left_wheel_tire", "nope"]).2.scans = 2 :=
  ⟨by decide, by decide,
   (get_link_index_memoized ["base", "imu", "left_wheel_tire"]).2.2.1 "nope" (by decide),
   by decide, by decide,
   ((get_link_index_memoized ["base", "imu", "left_wheel_tire"]).2.2.2.2.1 {}
     "left_wheel_tire" rfl).2.1,
   (get_link_index_memoized ["base", "imu", "left_wheel_tire"]).2.2.2.1 [] "left_wheel_tire"
     ["nope"],
   by decide⟩

end upkie
